import Mathlib

/-!
Verification development for the MLS client orchestration layer
(`src/rust_layer/src/lib.rs` of kotlin-mls).

The layer under verification owns the group registry (a `HashMap<String,
MlsGroup>`), epoch bookkeeping, the hex wire codec and the metadata
persistence boundary.  The cryptographic protocol engine (OpenMLS) is an
external collaborator: following the specification, it is modelled at its
interface boundary as a structure of functions (`Engine`), one field per
OpenMLS API point the Rust code calls.  Opaque engine objects (key
packages, commits, welcomes, protocol messages, staged commits) are
represented as byte lists; the live group object is an abstract type
parameter `γ` with accessors for the protocol-assigned group identifier
and the epoch counter.

Rust `&mut` mutation through the registry is embedded as explicit state
passing: every client operation returns `Except MlsError α ×
MlsClientState γ`, the second component being the registry state as it is
left behind even when the operation returns an error (mirroring in-place
mutation that has already happened when a later step fails).  An engine
call that returns `Except.error` is modelled as leaving the group object
it was called on unchanged, which is the OpenMLS API contract for a
failed fallible call.
-/

/-- Value of a single hexadecimal digit character, case-insensitive,
mirroring the byte-level acceptance of the `hex` crate used by `lib.rs`. -/
def hexDigitVal (c : Char) : Option Nat :=
  if 48 ≤ c.toNat ∧ c.toNat ≤ 57 then some (c.toNat - 48)
  else if 97 ≤ c.toNat ∧ c.toNat ≤ 102 then some (c.toNat - 87)
  else if 65 ≤ c.toNat ∧ c.toNat ≤ 70 then some (c.toNat - 55)
  else none

/-- Shallow embedding of `hex::decode` on the character list of the input:
fails on an odd number of digits or on a non-hex character. -/
def hexDecodeAux : List Char → Except String (List Nat)
  | [] => Except.ok []
  | [_] => Except.error ("OddLength")
  | hi :: lo :: rest =>
    match hexDigitVal hi, hexDigitVal lo with
    | some h, some l =>
      match hexDecodeAux rest with
      | Except.ok bs => Except.ok ((16 * h + l) :: bs)
      | Except.error e => Except.error e
    | _, _ => Except.error ("InvalidHexCharacter")

/-- Shallow embedding of `hex::decode : &str -> Result<Vec<u8>, FromHexError>`. -/
def hexDecode (s : String) : Except String (List Nat) :=
  hexDecodeAux s.data

/-- Lowercase hexadecimal digit character for a value below 16,
as produced by `hex::encode`. -/
def hexDigitChar (n : Nat) : Char :=
  if n < 10 then Char.ofNat (48 + n) else Char.ofNat (87 + n)

/-- Two lowercase hex digits of one byte, as produced by `hex::encode`. -/
def hexEncodeByte (b : Nat) : List Char :=
  [hexDigitChar (b / 16 % 16), hexDigitChar (b % 16)]

/-- Shallow embedding of `hex::encode : Vec<u8> -> String` (lowercase). -/
def hexEncode (bs : List Nat) : String :=
  String.mk (List.flatten (bs.map hexEncodeByte))

/-- The five error kinds of `MlsError` in `lib.rs`, each carrying its
detail string (for `GroupNotFound`, the group identifier). -/
inductive MlsError where
  | generic (msg : String)
  | groupNotFound (group_id : String)
  | cryptoError (msg : String)
  | ioError (msg : String)
  | serializationError (msg : String)
  deriving DecidableEq, Repr

/-- Result of `ProcessedMessage::into_content()` as the Rust code
distinguishes it: an application message (with its payload bytes), a
staged commit (the opaque staged-commit object), or any other content
kind (proposals), which both `process_commit` and `decrypt_message`
treat as the catch-all arm. -/
inductive ProcessedContent where
  | applicationMessage (payload : List Nat)
  | stagedCommit (sc : List Nat)
  | other
  deriving DecidableEq, Repr

/-- Result of `MlsMessageIn::extract()` as `process_welcome` matches it:
either a Welcome body or anything else. -/
inductive MsgBody where
  | welcome (w : List Nat)
  | other
  deriving DecidableEq, Repr

/-- Credential summary persisted per group (`SerializableCredential`). -/
structure SerializableCredential where
  credential_type : String
  identity : List Nat
  signature_key : List Nat
  deriving DecidableEq, Repr

/-- Modelled from the spec: the protocol-engine interface boundary
(OpenMLS, not part of this repository).  One field per engine API point
called by `lib.rs`; opaque engine objects are byte lists, the live group
object is the type parameter `γ`.  Engine behaviour is an arbitrary
function of its arguments; properties the specification promises of the
engine (a fresh group starts at epoch 0, merging a commit advances the
epoch by exactly one, processing never changes the group identifier) are
stated as explicit hypotheses of the theorems that need them. -/
structure Engine (γ : Type) where
  /-- `group.group_id().as_slice()` -/
  groupId : γ → List Nat
  /-- `group.epoch().as_u64()` -/
  epoch : γ → Nat
  /-- `group.members().count()` -/
  memberCount : γ → Nat
  /-- `MlsGroup::new(&crypto, &signer, &config, credential)` -/
  newGroup : Except String γ
  /-- `KeyPackageIn::tls_deserialize(bytes)` -/
  kpDeserialize : List Nat → Except String (List Nat)
  /-- `key_package_in.validate(crypto, version)` -/
  kpValidate : List Nat → Except String (List Nat)
  /-- `group.add_members(&crypto, &signer, &[kp])`, returning the group
  with the pending commit staged, the commit and the welcome -/
  addMembers : γ → List Nat → Except String (γ × List Nat × List Nat)
  /-- `group.merge_pending_commit(&crypto)` -/
  mergePendingCommit : γ → Except String γ
  /-- `MlsMessageIn::tls_deserialize(bytes)` -/
  msgDeserialize : List Nat → Except String (List Nat)
  /-- `mls_message.try_into_protocol_message()` -/
  toProtocolMessage : List Nat → Except String (List Nat)
  /-- `group.process_message(&crypto, protocol_message)` followed by
  `.into_content()` -/
  processMessage : γ → List Nat → Except String (γ × ProcessedContent)
  /-- `group.merge_staged_commit(&crypto, staged_commit)` -/
  mergeStagedCommit : γ → List Nat → Except String γ
  /-- `mls_message.extract()` matched for `MlsMessageBodyIn::Welcome` -/
  extractBody : List Nat → MsgBody
  /-- `StagedWelcome::new_from_welcome(&crypto, &config, welcome, None)` -/
  stageWelcome : List Nat → Except String (List Nat)
  /-- `staged_welcome.into_group(&crypto)` -/
  intoGroup : List Nat → Except String γ
  /-- `group.create_message(&crypto, &signer, plaintext_bytes)` -/
  createMessage : γ → List Nat → Except String (γ × List Nat)
  /-- `x.tls_serialize_detached()` on an outgoing engine object -/
  serializeMsg : List Nat → Except String (List Nat)
  /-- `group.export_group_info(crypto, &signer, false)` -/
  exportGroupInfo : γ → Except String (List Nat)
  /-- `group.own_leaf()`: credential type, identity bytes and signature
  key of the local member's leaf, as `save_state` snapshots them -/
  ownCredential : γ → SerializableCredential

/-- Association-list model of a keyed map — the `HashMap<String,
MlsGroup>` registry and the storage directory: lookup by key, first
match. -/
def regGet {κ α : Type} [DecidableEq κ] : List (κ × α) → κ → Option α
  | [], _ => none
  | (k, v) :: rest, key => if k = key then some v else regGet rest key

/-- Whether the map holds the key (`HashMap::contains_key`). -/
def regHas {κ α : Type} [DecidableEq κ] (l : List (κ × α)) (key : κ) : Bool :=
  (regGet l key).isSome

/-- Replacement of the value stored under a key, keeping every other
entry. -/
def regReplace {κ α : Type} [DecidableEq κ] : List (κ × α) → κ → α →
    List (κ × α)
  | [], _, _ => []
  | (k, w) :: rest, key, v =>
    if k = key then (key, v) :: regReplace rest key v
    else (k, w) :: regReplace rest key v

/-- `HashMap::insert` (and `fs::write` at file granularity): replaces the
value of an existing key, otherwise adds a new entry. -/
def regInsert {κ α : Type} [DecidableEq κ] (l : List (κ × α)) (key : κ)
    (v : α) : List (κ × α) :=
  if regHas l key then regReplace l key v else l ++ [(key, v)]

/-- Key set of the map (`HashMap::keys`). -/
def regKeys {κ α : Type} [DecidableEq κ] (l : List (κ × α)) : List κ :=
  l.map Prod.fst

/-- The registry portion of `MlsClientState`: the `groups` map.  The
`crypto`, `signer` and `credential` fields live behind the `Engine`
interface. -/
structure MlsClientState (γ : Type) where
  groups : List (String × γ)
  deriving DecidableEq, Repr

/-- Durable per-group record (`GroupState` in `lib.rs`). -/
structure GroupState where
  group_id : String
  epoch : Nat
  group_info_data : List Nat
  credential : SerializableCredential
  deriving DecidableEq, Repr

/-- File name split as stem and extension, the granularity at which
`save_state` (writes `{group_id}.json`) and `list_saved_groups`
(filters `path.extension() == Some("json")`) look at paths. -/
structure FileName where
  stem : String
  ext : String
  deriving DecidableEq, Repr

/-- Durable storage under the client's `storage_path`: whether the
directory exists and the files in it, keyed by name.  File contents are
the parsed `GroupState` records (the serde JSON round-trip of the
external collaborator is taken as exact). -/
structure Storage where
  dirExists : Bool
  files : List (FileName × GroupState)
  deriving DecidableEq, Repr


/-- Byte view of a Rust `String` (`plaintext.as_bytes()`); the byte-level
encoding of characters is abstracted to code points, which is exact on
ASCII payloads and irrelevant to every property proved here. -/
def strBytes (s : String) : List Nat :=
  s.data.map Char.toNat

/-- Abstraction of `String::from_utf8`: succeeds exactly on payloads this
model can render as text, failing otherwise, mirroring that UTF-8
validation of an application payload is fallible. -/
def utf8Decode (bs : List Nat) : Except String String :=
  if bs.all (fun b => b < 128) then Except.ok (String.mk (bs.map Char.ofNat))
  else Except.error ("InvalidUtf8")

/-- `MlsClient::new` (lines 78-106): the registry starts empty; the
auto-invoked `load_state` (lines 449-486) only reads the storage
directory for diagnostics and never constructs a live session, so the
fresh client's `groups` map is empty whatever the storage holds. -/
def clientNew (γ : Type) : MlsClientState γ :=
  ⟨[]⟩

/-- `MlsClient::list_active_groups` (lines 140-143). -/
def list_active_groups {γ : Type} (st : MlsClientState γ) : List String :=
  regKeys st.groups

/-- `MlsClient::get_group_info` (lines 146-160); pure, the registry is
not modified. -/
def get_group_info {γ : Type} (E : Engine γ) (st : MlsClientState γ)
    (group_id : String) : Except MlsError String :=
  match regGet st.groups group_id with
  | none => Except.error (MlsError.groupNotFound group_id)
  | some group =>
    Except.ok ("\x7b\"group_id\":\"" ++ group_id ++ "\",\"epoch\":"
      ++ toString (E.epoch group) ++ ",\"member_count\":"
      ++ toString (E.memberCount group) ++ "\x7d")

/-- `MlsClient::create_group` (lines 163-184): the `_group_id` argument
is unused; the engine-assigned identifier is hex-encoded and used as the
registry key. -/
def create_group {γ : Type} (E : Engine γ) (st : MlsClientState γ)
    (_group_id : String) : Except MlsError String × MlsClientState γ :=
  match E.newGroup with
  | Except.error e =>
    (Except.error (MlsError.generic ("Failed to create group: " ++ e)), st)
  | Except.ok group =>
    let actual_group_id := hexEncode (E.groupId group)
    (Except.ok actual_group_id, ⟨regInsert st.groups actual_group_id group⟩)

/-- `MlsClient::add_member` (lines 187-241).  The payload is decoded,
deserialized and validated before the registry lookup; on success the
pending commit is merged before the commit and welcome are serialized,
so a serialization failure happens after the merge has taken effect. -/
def add_member {γ : Type} (E : Engine γ) (st : MlsClientState γ)
    (group_id : String) (new_member_key_package_hex : String) :
    Except MlsError String × MlsClientState γ :=
  match hexDecode new_member_key_package_hex with
  | Except.error e =>
    (Except.error (MlsError.serializationError
      ("Failed to decode key package hex: " ++ e)), st)
  | Except.ok kp_bytes =>
  match E.kpDeserialize kp_bytes with
  | Except.error e =>
    (Except.error (MlsError.serializationError
      ("Failed to deserialize key package: " ++ e)), st)
  | Except.ok key_package_in =>
  match E.kpValidate key_package_in with
  | Except.error e =>
    (Except.error (MlsError.cryptoError
      ("Failed to validate key package: " ++ e)), st)
  | Except.ok key_package =>
  match regGet st.groups group_id with
  | none => (Except.error (MlsError.groupNotFound group_id), st)
  | some group =>
  match E.addMembers group key_package with
  | Except.error e =>
    (Except.error (MlsError.generic ("Failed to add member: " ++ e)), st)
  | Except.ok (group1, commit, welcome) =>
  match E.mergePendingCommit group1 with
  | Except.error e =>
    (Except.error (MlsError.generic ("Failed to merge pending commit: " ++ e)),
      ⟨regInsert st.groups group_id group1⟩)
  | Except.ok group2 =>
  let st2 : MlsClientState γ := ⟨regInsert st.groups group_id group2⟩
  match E.serializeMsg commit with
  | Except.error e =>
    (Except.error (MlsError.serializationError
      ("Failed to serialize commit: " ++ e)), st2)
  | Except.ok commit_bytes =>
  match E.serializeMsg welcome with
  | Except.error e =>
    (Except.error (MlsError.serializationError
      ("Failed to serialize welcome: " ++ e)), st2)
  | Except.ok welcome_bytes =>
    (Except.ok ("\x7b\"commit\":\"" ++ hexEncode commit_bytes
      ++ "\",\"welcome\":\"" ++ hexEncode welcome_bytes ++ "\"\x7d"), st2)

/-- `MlsClient::process_commit` (lines 244-282): decode and convert the
payload, look the group up, process the message, and merge the result
only when it is a staged commit; any other content kind is accepted
silently with no merge. -/
def process_commit {γ : Type} (E : Engine γ) (st : MlsClientState γ)
    (group_id : String) (commit_hex : String) :
    Except MlsError Unit × MlsClientState γ :=
  match hexDecode commit_hex with
  | Except.error e =>
    (Except.error (MlsError.serializationError
      ("Failed to decode commit hex: " ++ e)), st)
  | Except.ok commit_bytes =>
  match E.msgDeserialize commit_bytes with
  | Except.error e =>
    (Except.error (MlsError.serializationError
      ("Failed to deserialize commit: " ++ e)), st)
  | Except.ok mls_message =>
  match E.toProtocolMessage mls_message with
  | Except.error e =>
    (Except.error (MlsError.serializationError
      ("Failed to convert to protocol message: " ++ e)), st)
  | Except.ok protocol_message =>
  match regGet st.groups group_id with
  | none => (Except.error (MlsError.groupNotFound group_id), st)
  | some group =>
  match E.processMessage group protocol_message with
  | Except.error e =>
    (Except.error (MlsError.generic ("Failed to process commit: " ++ e)), st)
  | Except.ok (group1, content) =>
  match content with
  | ProcessedContent.stagedCommit staged_commit =>
    (match E.mergeStagedCommit group1 staged_commit with
     | Except.error e =>
       (Except.error (MlsError.generic
         ("Failed to merge staged commit: " ++ e)),
         ⟨regInsert st.groups group_id group1⟩)
     | Except.ok group2 =>
       (Except.ok (), ⟨regInsert st.groups group_id group2⟩))
  | _ => (Except.ok (), ⟨regInsert st.groups group_id group1⟩)

/-- `MlsClient::process_welcome` (lines 285-323): on success the joined
group is registered under the hex of its protocol-assigned identifier,
replacing any previous entry under that key. -/
def process_welcome {γ : Type} (E : Engine γ) (st : MlsClientState γ)
    (welcome_hex : String) : Except MlsError String × MlsClientState γ :=
  match hexDecode welcome_hex with
  | Except.error e =>
    (Except.error (MlsError.serializationError
      ("Failed to decode welcome hex: " ++ e)), st)
  | Except.ok welcome_bytes =>
  match E.msgDeserialize welcome_bytes with
  | Except.error e =>
    (Except.error (MlsError.serializationError
      ("Failed to deserialize welcome: " ++ e)), st)
  | Except.ok mls_message =>
  match E.extractBody mls_message with
  | MsgBody.other =>
    (Except.error (MlsError.generic
      ("Expected Welcome message, got different type")), st)
  | MsgBody.welcome welcome =>
  match E.stageWelcome welcome with
  | Except.error e =>
    (Except.error (MlsError.generic ("Failed to stage welcome: " ++ e)), st)
  | Except.ok staged_welcome =>
  match E.intoGroup staged_welcome with
  | Except.error e =>
    (Except.error (MlsError.generic
      ("Failed to create group from welcome: " ++ e)), st)
  | Except.ok group =>
    let group_id := hexEncode (E.groupId group)
    (Except.ok group_id, ⟨regInsert st.groups group_id group⟩)

/-- `MlsClient::encrypt_message` (lines 326-349): the registry lookup
happens before any processing of the plaintext. -/
def encrypt_message {γ : Type} (E : Engine γ) (st : MlsClientState γ)
    (group_id : String) (plaintext : String) :
    Except MlsError String × MlsClientState γ :=
  match regGet st.groups group_id with
  | none => (Except.error (MlsError.groupNotFound group_id), st)
  | some group =>
  match E.createMessage group (strBytes plaintext) with
  | Except.error e =>
    (Except.error (MlsError.generic ("Failed to encrypt message: " ++ e)), st)
  | Except.ok (group1, msg) =>
  let st1 : MlsClientState γ := ⟨regInsert st.groups group_id group1⟩
  match E.serializeMsg msg with
  | Except.error e =>
    (Except.error (MlsError.serializationError
      ("Failed to serialize message: " ++ e)), st1)
  | Except.ok bytes => (Except.ok (hexEncode bytes), st1)

/-- `MlsClient::decrypt_message` (lines 352-386): the payload is decoded
before the registry lookup; application-message content is returned as
UTF-8 text, every other content kind yields the empty string with no
merge performed. -/
def decrypt_message {γ : Type} (E : Engine γ) (st : MlsClientState γ)
    (group_id : String) (ciphertext_hex : String) :
    Except MlsError String × MlsClientState γ :=
  match hexDecode ciphertext_hex with
  | Except.error e =>
    (Except.error (MlsError.serializationError
      ("Failed to decode ciphertext hex: " ++ e)), st)
  | Except.ok bytes =>
  match E.msgDeserialize bytes with
  | Except.error e =>
    (Except.error (MlsError.serializationError
      ("Failed to deserialize message: " ++ e)), st)
  | Except.ok mls_message =>
  match E.toProtocolMessage mls_message with
  | Except.error e =>
    (Except.error (MlsError.serializationError
      ("Failed to convert to protocol message: " ++ e)), st)
  | Except.ok protocol_message =>
  match regGet st.groups group_id with
  | none => (Except.error (MlsError.groupNotFound group_id), st)
  | some group =>
  match E.processMessage group protocol_message with
  | Except.error e =>
    (Except.error (MlsError.generic ("Failed to decrypt message: " ++ e)), st)
  | Except.ok (group1, content) =>
  let st1 : MlsClientState γ := ⟨regInsert st.groups group_id group1⟩
  match content with
  | ProcessedContent.applicationMessage app_msg =>
    (match utf8Decode app_msg with
     | Except.error e =>
       (Except.error (MlsError.serializationError
         ("Failed to convert message to UTF-8: " ++ e)), st1)
     | Except.ok s => (Except.ok s, st1))
  | _ => (Except.ok (""), st1)

/-- Body of the `save_state` loop (lines 401-435): one durable record per
registered group, file `{group_id}.json`, aborting on the first group
whose export or serialization fails, with records written so far kept. -/
def saveGroupsAux {γ : Type} (E : Engine γ) :
    List (String × γ) → List (FileName × GroupState) →
    Except MlsError Unit × List (FileName × GroupState)
  | [], files => (Except.ok (), files)
  | (group_id, group) :: rest, files =>
    match E.exportGroupInfo group with
    | Except.error e =>
      (Except.error (MlsError.generic
        ("Failed to export group info: " ++ e)), files)
    | Except.ok group_info =>
    match E.serializeMsg group_info with
    | Except.error e =>
      (Except.error (MlsError.serializationError
        ("Failed to serialize group info: " ++ e)), files)
    | Except.ok group_info_data =>
      saveGroupsAux E rest (regInsert files ⟨group_id, "json"⟩
        ⟨group_id, E.epoch group, group_info_data, E.ownCredential group⟩)

/-- `MlsClient::save_state` (lines 393-438): `fs::create_dir_all` then
one record per group; filesystem writes themselves are modelled as
succeeding, the fallible steps are the engine export and serialization. -/
def save_state {γ : Type} (E : Engine γ) (st : MlsClientState γ)
    (storage : Storage) : Except MlsError Unit × Storage :=
  match saveGroupsAux E st.groups storage.files with
  | (r, files1) => (r, ⟨true, files1⟩)

/-- `MlsClient::list_saved_groups` (lines 489-517): empty when the
storage directory does not exist, otherwise the `group_id` field of
every record whose file name has the `json` extension. -/
def list_saved_groups (storage : Storage) : Except MlsError (List String) :=
  if storage.dirExists then
    Except.ok ((storage.files.filter (fun p => p.1.ext == "json")).map
      (fun p => p.2.group_id))
  else Except.ok []

/-- `MlsClient::load_state` (lines 449-486): reads records for
diagnostic output only; the registry and the storage are untouched.
With filesystem reads modelled as succeeding it always returns `ok`. -/
def load_state (_storage : Storage) : Except MlsError Unit :=
  Except.ok ()

/-! Registry lemmas: the association-list model of `HashMap::insert`
behaves as a finite map. -/

theorem regGet_append_single {κ α : Type} [DecidableEq κ] (l : List (κ × α)) (k : κ)
    (v : α) (h : regGet l k = none) : regGet (l ++ [(k, v)]) k = some v := by
  induction l with
  | nil => simp [regGet]
  | cons p t ih =>
    obtain ⟨a, b⟩ := p
    by_cases hak : a = k
    · simp [regGet, hak] at h
    · simp only [regGet, hak, if_false, List.cons_append] at h ⊢
      exact ih h

theorem regGet_append_single_ne {κ α : Type} [DecidableEq κ] (l : List (κ × α))
    (k k' : κ) (v : α) (h : k' ≠ k) :
    regGet (l ++ [(k, v)]) k' = regGet l k' := by
  induction l with
  | nil =>
    simp only [List.nil_append, regGet]
    rw [if_neg (fun hh => h hh.symm)]
  | cons p t ih =>
    obtain ⟨a, b⟩ := p
    by_cases hak : a = k'
    · simp [regGet, hak]
    · simp [regGet, hak, ih]

theorem regGet_regReplace_self {κ α : Type} [DecidableEq κ] (l : List (κ × α))
    (k : κ) (v : α) (h : (regGet l k).isSome) :
    regGet (regReplace l k v) k = some v := by
  induction l with
  | nil => simp [regGet] at h
  | cons p t ih =>
    obtain ⟨a, b⟩ := p
    by_cases hak : a = k
    · simp [regReplace, regGet, hak]
    · simp only [regGet, hak, if_false] at h
      simp only [regReplace, hak, if_false, regGet]
      exact ih h

theorem regGet_regReplace_ne {κ α : Type} [DecidableEq κ] (l : List (κ × α))
    (k k' : κ) (v : α) (h : k' ≠ k) :
    regGet (regReplace l k v) k' = regGet l k' := by
  induction l with
  | nil => simp [regReplace]
  | cons p t ih =>
    obtain ⟨a, b⟩ := p
    by_cases hak : a = k
    · subst hak
      simp only [regReplace, if_pos rfl, regGet]
      rw [if_neg (fun hh => h hh.symm), if_neg (fun hh => h hh.symm), ih]
    · simp only [regReplace, hak, if_false, regGet]
      by_cases hak' : a = k'
      · simp [hak']
      · simp [hak', ih]

theorem regKeys_regReplace {κ α : Type} [DecidableEq κ] (l : List (κ × α)) (k : κ)
    (v : α) : regKeys (regReplace l k v) = regKeys l := by
  induction l with
  | nil => rfl
  | cons p t ih =>
    obtain ⟨a, b⟩ := p
    by_cases hak : a = k
    · rw [show regReplace ((a, b) :: t) k v = (k, v) :: regReplace t k v from
        by simp [regReplace, hak]]
      simp only [regKeys, List.map_cons] at ih ⊢
      rw [ih, hak]
    · rw [show regReplace ((a, b) :: t) k v = (a, b) :: regReplace t k v from
        by simp [regReplace, hak]]
      simp only [regKeys, List.map_cons] at ih ⊢
      rw [ih]

theorem regGet_regInsert_self {κ α : Type} [DecidableEq κ] (l : List (κ × α))
    (k : κ) (v : α) : regGet (regInsert l k v) k = some v := by
  unfold regInsert regHas
  by_cases h : (regGet l k).isSome
  · simp only [h, if_true]
    exact regGet_regReplace_self l k v h
  · simp only [h, if_false]
    exact regGet_append_single l k v (by
      cases hg : regGet l k
      · rfl
      · exact absurd (by simp [hg]) h)

theorem regGet_regInsert_ne {κ α : Type} [DecidableEq κ] (l : List (κ × α))
    (k k' : κ) (v : α) (h : k' ≠ k) :
    regGet (regInsert l k v) k' = regGet l k' := by
  unfold regInsert
  by_cases hh : regHas l k
  · simp only [hh, if_true]
    exact regGet_regReplace_ne l k k' v h
  · simp only [hh, if_false]
    exact regGet_append_single_ne l k k' v h

theorem regKeys_regInsert_of_has {κ α : Type} [DecidableEq κ] (l : List (κ × α))
    (k : κ) (v : α) (h : regHas l k = true) :
    regKeys (regInsert l k v) = regKeys l := by
  unfold regInsert
  rw [if_pos h]
  exact regKeys_regReplace l k v

theorem regHas_of_get {κ α : Type} [DecidableEq κ] (l : List (κ × α)) (k : κ)
    (v : α) (h : regGet l k = some v) : regHas l k = true := by
  unfold regHas
  simp [h]

theorem mem_regKeys_of_get {κ α : Type} [DecidableEq κ] (l : List (κ × α)) (k : κ)
    (v : α) (h : regGet l k = some v) : k ∈ regKeys l := by
  induction l with
  | nil => simp [regGet] at h
  | cons p t ih =>
    obtain ⟨a, b⟩ := p
    by_cases hak : a = k
    · simp [regKeys, hak]
    · simp only [regGet, hak, if_false] at h
      simp only [regKeys, List.map_cons, List.mem_cons]
      exact Or.inr (ih h)

theorem get_of_mem_regKeys {κ α : Type} [DecidableEq κ] (l : List (κ × α)) (k : κ)
    (h : k ∈ regKeys l) : ∃ v, regGet l k = some v := by
  induction l with
  | nil => simp [regKeys] at h
  | cons p t ih =>
    obtain ⟨a, b⟩ := p
    by_cases hak : a = k
    · exact ⟨b, by simp [regGet, hak]⟩
    · simp only [regKeys, List.map_cons, List.mem_cons] at h
      rcases h with rfl | h
      · exact absurd rfl hak
      · obtain ⟨v, hv⟩ := ih h
        exact ⟨v, by simp [regGet, hak, hv]⟩

theorem mem_regKeys_regInsert {κ α : Type} [DecidableEq κ] (l : List (κ × α))
    (k k' : κ) (v : α) :
    k' ∈ regKeys (regInsert l k v) ↔ k' ∈ regKeys l ∨ k' = k := by
  unfold regInsert
  by_cases hh : regHas l k
  · rw [if_pos hh, regKeys_regReplace]
    constructor
    · exact Or.inl
    · rintro (h | rfl)
      · exact h
      · unfold regHas at hh
        rcases hg : regGet l k' with _ | w
        · rw [hg] at hh
          exact absurd hh (by simp)
        · exact mem_regKeys_of_get l k' w hg
  · rw [if_neg hh]
    unfold regKeys
    simp only [List.map_append, List.map_cons, List.map_nil,
      List.mem_append, List.mem_cons, List.not_mem_nil, or_false]

/-! Concrete engine instances used to evaluate the theorems on closed
inputs.  `toyE` is a minimal engine over `γ := Nat` where the group
object is its own epoch counter and the protocol-assigned group
identifier is the fixed byte `0xab` (hex `"ab"`). -/

/-- Content classification of `toyE.processMessage`: the byte string
`[9]` is a commit, `[8]` an application message, everything else a
proposal-like content kind. -/
def toyContent (m : List Nat) : ProcessedContent :=
  if m = [9] then ProcessedContent.stagedCommit m
  else if m = [8] then ProcessedContent.applicationMessage [104, 105]
  else ProcessedContent.other

/-- Minimal executable engine instance over `γ := Nat`. -/
def toyE : Engine Nat where
  groupId := fun _ => [171]
  epoch := fun g => g
  memberCount := fun _ => 1
  newGroup := Except.ok 0
  kpDeserialize := fun bs => Except.ok bs
  kpValidate := fun bs => Except.ok bs
  addMembers := fun g _ => Except.ok (g, [1], [2])
  mergePendingCommit := fun g => Except.ok (g + 1)
  msgDeserialize := fun bs => Except.ok bs
  toProtocolMessage := fun bs => Except.ok bs
  processMessage := fun g m => Except.ok (g, toyContent m)
  mergeStagedCommit := fun g _ => Except.ok (g + 1)
  extractBody := fun m => MsgBody.welcome m
  stageWelcome := fun w => Except.ok w
  intoGroup := fun _ => Except.ok 5
  createMessage := fun g p => Except.ok (g, p)
  serializeMsg := fun bs => Except.ok bs
  exportGroupInfo := fun g => Except.ok [g]
  ownCredential := fun _ => ⟨"Basic", [100], [200]⟩

theorem toyE_newGroup_epoch : ∀ g, toyE.newGroup = Except.ok g →
    toyE.epoch g = 0 := by
  intro g h
  simp [toyE] at h
  simp [toyE, h]

theorem toyE_addMembers_epoch : ∀ (g : Nat) kp g' c w,
    toyE.addMembers g kp = Except.ok (g', c, w) →
    toyE.epoch g' = toyE.epoch g := by
  intro g kp g' c w h
  simp [toyE] at h
  obtain ⟨rfl, -, -⟩ := h
  rfl

theorem toyE_addMembers_groupId : ∀ (g : Nat) kp g' c w,
    toyE.addMembers g kp = Except.ok (g', c, w) →
    toyE.groupId g' = toyE.groupId g := by
  intro g kp g' c w _
  rfl

theorem toyE_mergePendingCommit_epoch : ∀ (g g' : Nat),
    toyE.mergePendingCommit g = Except.ok g' →
    toyE.epoch g' = toyE.epoch g + 1 := by
  intro g g' h
  simp [toyE] at h
  simp [toyE, ← h]

theorem toyE_processMessage_epoch : ∀ (g : Nat) m g' c,
    toyE.processMessage g m = Except.ok (g', c) →
    toyE.epoch g' = toyE.epoch g := by
  intro g m g' c h
  simp [toyE] at h
  obtain ⟨rfl, -⟩ := h
  rfl

theorem toyE_mergeStagedCommit_epoch : ∀ (g : Nat) sc g',
    toyE.mergeStagedCommit g sc = Except.ok g' →
    toyE.epoch g' = toyE.epoch g + 1 := by
  intro g sc g' h
  simp [toyE] at h
  simp [toyE, ← h]

/-- C1: for every engine satisfying the spec's engine contract (staging
an add keeps the epoch, merging the pending commit advances it by one),
every successful `add_member` call finds the group registered before the
call and leaves it registered, at return time, with its epoch advanced
by exactly one. -/
theorem add_member_ok_epoch_succ {γ : Type} (E : Engine γ)
    (hAdd : ∀ g kp g' c w, E.addMembers g kp = Except.ok (g', c, w) →
      E.epoch g' = E.epoch g)
    (hMerge : ∀ g g', E.mergePendingCommit g = Except.ok g' →
      E.epoch g' = E.epoch g + 1)
    (st : MlsClientState γ) (group_id kp_hex res : String)
    (st' : MlsClientState γ)
    (h : add_member E st group_id kp_hex = (Except.ok res, st')) :
    ∃ g g', regGet st.groups group_id = some g ∧
      regGet st'.groups group_id = some g' ∧
      E.epoch g' = E.epoch g + 1 := by
  rcases hkd : hexDecode kp_hex with e | kp_bytes
  · simp [add_member, hkd] at h
  rcases hkdes : E.kpDeserialize kp_bytes with e | key_package_in
  · simp [add_member, hkd, hkdes] at h
  rcases hkv : E.kpValidate key_package_in with e | key_package
  · simp [add_member, hkd, hkdes, hkv] at h
  rcases hget : regGet st.groups group_id with _ | group
  · simp [add_member, hkd, hkdes, hkv, hget] at h
  rcases hadd : E.addMembers group key_package with e | ⟨group1, commit, welcome⟩
  · simp [add_member, hkd, hkdes, hkv, hget, hadd] at h
  rcases hmerge : E.mergePendingCommit group1 with e | group2
  · simp [add_member, hkd, hkdes, hkv, hget, hadd, hmerge] at h
  rcases hsc : E.serializeMsg commit with e | commit_bytes
  · simp [add_member, hkd, hkdes, hkv, hget, hadd, hmerge, hsc] at h
  rcases hsw : E.serializeMsg welcome with e | welcome_bytes
  · simp [add_member, hkd, hkdes, hkv, hget, hadd, hmerge, hsc, hsw] at h
  simp only [add_member, hkd, hkdes, hkv, hget, hadd, hmerge, hsc, hsw,
    Prod.mk.injEq, Except.ok.injEq] at h
  obtain ⟨-, hst⟩ := h
  subst hst
  exact ⟨group, group2, rfl, regGet_regInsert_self _ _ _,
    by rw [hMerge group1 group2 hmerge,
      hAdd group key_package group1 commit welcome hadd]⟩

/-- Witness for C1: a concrete successful `add_member` run on `toyE`
advancing the registered epoch from 3 to 4. -/
theorem add_member_ok_epoch_succ_witness :
    ∃ g g', regGet ((⟨[("ab", 3)]⟩ : MlsClientState Nat)).groups ("ab") = some g ∧
      regGet (add_member toyE ⟨[("ab", 3)]⟩ ("ab") ("aa")).2.groups ("ab") = some g' ∧
      toyE.epoch g' = toyE.epoch g + 1 :=
  add_member_ok_epoch_succ toyE toyE_addMembers_epoch
    toyE_mergePendingCommit_epoch ⟨[("ab", 3)]⟩ ("ab") ("aa")
    ("\x7b\"commit\":\"01\",\"welcome\":\"02\"\x7d") ⟨[("ab", 4)]⟩ (by rfl)

/-- Engine identical to `toyE` except that serializing an outgoing
object fails, exercising the `SerializationError` paths of the
operations. -/
def badSerialE : Engine Nat :=
  { toyE with serializeMsg := fun _ => Except.error ("boom") }

theorem badSerialE_addMembers_epoch : ∀ (g : Nat) kp g' c w,
    badSerialE.addMembers g kp = Except.ok (g', c, w) →
    badSerialE.epoch g' = badSerialE.epoch g :=
  toyE_addMembers_epoch

theorem badSerialE_mergePendingCommit_epoch : ∀ (g g' : Nat),
    badSerialE.mergePendingCommit g = Except.ok g' →
    badSerialE.epoch g' = badSerialE.epoch g + 1 :=
  toyE_mergePendingCommit_epoch

theorem badSerialE_processMessage_epoch : ∀ (g : Nat) m g' c,
    badSerialE.processMessage g m = Except.ok (g', c) →
    badSerialE.epoch g' = badSerialE.epoch g :=
  toyE_processMessage_epoch

/-- C2 counterexample: with an engine whose wire serialization of the
produced commit fails, `add_member` returns a `SerializationError`, yet
the targeted group's epoch has already advanced from 3 to 4, because the
code merges the pending commit (line 222) before serializing the commit
and welcome (lines 227-231).  A failed call can therefore leave the
session past its pre-call epoch, contradicting the claim. -/
theorem add_member_error_epoch_advanced_cex :
    (add_member badSerialE ⟨[("ab", 3)]⟩ ("ab") ("aa")).1 =
      Except.error (MlsError.serializationError
        ("Failed to serialize commit: boom")) ∧
    regGet ([(("ab" : String), (3 : Nat))]) ("ab") = some 3 ∧
    regGet (add_member badSerialE ⟨[("ab", 3)]⟩ ("ab") ("aa")).2.groups ("ab") =
      some 4 :=
  ⟨rfl, rfl, rfl⟩

/-- C2 amended: a failed `add_member` or `process_commit` never adds or
removes a registry entry and never touches any group other than the
targeted one; a failed `process_commit` also leaves the targeted group's
epoch unchanged, and so does a failed `add_member` except when the
failure is a `SerializationError` raised while serializing the produced
commit or welcome, in which case the pending commit has already been
merged and the epoch has advanced by exactly one.  Engine-contract
hypotheses: staging an add and processing a message preserve the epoch,
merging a pending commit advances it by one. -/
theorem add_member_process_commit_error_atomicity {γ : Type} (E : Engine γ)
    (hAdd : ∀ g kp g' c w, E.addMembers g kp = Except.ok (g', c, w) →
      E.epoch g' = E.epoch g)
    (hMergeP : ∀ g g', E.mergePendingCommit g = Except.ok g' →
      E.epoch g' = E.epoch g + 1)
    (hProc : ∀ g m g' c, E.processMessage g m = Except.ok (g', c) →
      E.epoch g' = E.epoch g)
    (st : MlsClientState γ) (group_id payload : String) :
    (∀ err st', add_member E st group_id payload = (Except.error err, st') →
      regKeys st'.groups = regKeys st.groups ∧
      (∀ k, k ≠ group_id → regGet st'.groups k = regGet st.groups k) ∧
      ((regGet st'.groups group_id).map E.epoch =
        (regGet st.groups group_id).map E.epoch ∨
       (∃ m, err = MlsError.serializationError m) ∧
        (regGet st'.groups group_id).map E.epoch =
          (regGet st.groups group_id).map (fun g => E.epoch g + 1))) ∧
    (∀ err st', process_commit E st group_id payload = (Except.error err, st') →
      regKeys st'.groups = regKeys st.groups ∧
      (∀ k, k ≠ group_id → regGet st'.groups k = regGet st.groups k) ∧
      (regGet st'.groups group_id).map E.epoch =
        (regGet st.groups group_id).map E.epoch) := by
  constructor
  · intro err st' h
    rcases hkd : hexDecode payload with e | kp_bytes
    · simp only [add_member, hkd, Prod.mk.injEq, Except.error.injEq] at h
      obtain ⟨-, hst⟩ := h
      subst hst
      exact ⟨rfl, fun k _ => rfl, Or.inl rfl⟩
    rcases hkdes : E.kpDeserialize kp_bytes with e | key_package_in
    · simp only [add_member, hkd, hkdes, Prod.mk.injEq, Except.error.injEq] at h
      obtain ⟨-, hst⟩ := h
      subst hst
      exact ⟨rfl, fun k _ => rfl, Or.inl rfl⟩
    rcases hkv : E.kpValidate key_package_in with e | key_package
    · simp only [add_member, hkd, hkdes, hkv, Prod.mk.injEq,
        Except.error.injEq] at h
      obtain ⟨-, hst⟩ := h
      subst hst
      exact ⟨rfl, fun k _ => rfl, Or.inl rfl⟩
    rcases hget : regGet st.groups group_id with _ | group
    · simp only [add_member, hkd, hkdes, hkv, hget, Prod.mk.injEq,
        Except.error.injEq] at h
      obtain ⟨-, hst⟩ := h
      subst hst
      exact ⟨rfl, fun k _ => rfl, Or.inl (by rw [hget])⟩
    rcases hadd : E.addMembers group key_package with e | ⟨group1, commit, welcome⟩
    · simp only [add_member, hkd, hkdes, hkv, hget, hadd, Prod.mk.injEq,
        Except.error.injEq] at h
      obtain ⟨-, hst⟩ := h
      subst hst
      exact ⟨rfl, fun k _ => rfl, Or.inl (by rw [hget])⟩
    rcases hmerge : E.mergePendingCommit group1 with e | group2
    · simp only [add_member, hkd, hkdes, hkv, hget, hadd, hmerge,
        Prod.mk.injEq, Except.error.injEq] at h
      obtain ⟨-, hst⟩ := h
      subst hst
      refine ⟨regKeys_regInsert_of_has _ _ _ (regHas_of_get _ _ _ hget),
        fun k hk => regGet_regInsert_ne _ _ _ _ hk, Or.inl ?_⟩
      rw [regGet_regInsert_self]
      simp only [Option.map_some']
      exact congrArg some (hAdd _ _ _ _ _ hadd)
    rcases hsc : E.serializeMsg commit with e | commit_bytes
    · simp only [add_member, hkd, hkdes, hkv, hget, hadd, hmerge, hsc,
        Prod.mk.injEq, Except.error.injEq] at h
      obtain ⟨herr, hst⟩ := h
      subst hst
      refine ⟨regKeys_regInsert_of_has _ _ _ (regHas_of_get _ _ _ hget),
        fun k hk => regGet_regInsert_ne _ _ _ _ hk,
        Or.inr ⟨⟨_, herr.symm⟩, ?_⟩⟩
      rw [regGet_regInsert_self]
      simp only [Option.map_some']
      exact congrArg some (by
        rw [hMergeP _ _ hmerge, hAdd _ _ _ _ _ hadd])
    rcases hsw : E.serializeMsg welcome with e | welcome_bytes
    · simp only [add_member, hkd, hkdes, hkv, hget, hadd, hmerge, hsc, hsw,
        Prod.mk.injEq, Except.error.injEq] at h
      obtain ⟨herr, hst⟩ := h
      subst hst
      refine ⟨regKeys_regInsert_of_has _ _ _ (regHas_of_get _ _ _ hget),
        fun k hk => regGet_regInsert_ne _ _ _ _ hk,
        Or.inr ⟨⟨_, herr.symm⟩, ?_⟩⟩
      rw [regGet_regInsert_self]
      simp only [Option.map_some']
      exact congrArg some (by
        rw [hMergeP _ _ hmerge, hAdd _ _ _ _ _ hadd])
    · simp only [add_member, hkd, hkdes, hkv, hget, hadd, hmerge, hsc, hsw,
        Prod.mk.injEq] at h
      exact absurd h.1 (by simp)
  · intro err st' h
    rcases hkd : hexDecode payload with e | commit_bytes
    · simp only [process_commit, hkd, Prod.mk.injEq, Except.error.injEq] at h
      obtain ⟨-, hst⟩ := h
      subst hst
      exact ⟨rfl, fun k _ => rfl, rfl⟩
    rcases hdes : E.msgDeserialize commit_bytes with e | mls_message
    · simp only [process_commit, hkd, hdes, Prod.mk.injEq,
        Except.error.injEq] at h
      obtain ⟨-, hst⟩ := h
      subst hst
      exact ⟨rfl, fun k _ => rfl, rfl⟩
    rcases hproto : E.toProtocolMessage mls_message with e | protocol_message
    · simp only [process_commit, hkd, hdes, hproto, Prod.mk.injEq,
        Except.error.injEq] at h
      obtain ⟨-, hst⟩ := h
      subst hst
      exact ⟨rfl, fun k _ => rfl, rfl⟩
    rcases hget : regGet st.groups group_id with _ | group
    · simp only [process_commit, hkd, hdes, hproto, hget, Prod.mk.injEq,
        Except.error.injEq] at h
      obtain ⟨-, hst⟩ := h
      subst hst
      exact ⟨rfl, fun k _ => rfl, by rw [hget]⟩
    rcases hpm : E.processMessage group protocol_message with e | ⟨group1, content⟩
    · simp only [process_commit, hkd, hdes, hproto, hget, hpm, Prod.mk.injEq,
        Except.error.injEq] at h
      obtain ⟨-, hst⟩ := h
      subst hst
      exact ⟨rfl, fun k _ => rfl, by rw [hget]⟩
    rcases content with payload_bytes | sc | _
    · simp only [process_commit, hkd, hdes, hproto, hget, hpm,
        Prod.mk.injEq] at h
      exact absurd h.1 (by simp)
    · rcases hms : E.mergeStagedCommit group1 sc with e | group2
      · simp only [process_commit, hkd, hdes, hproto, hget, hpm, hms,
          Prod.mk.injEq, Except.error.injEq] at h
        obtain ⟨-, hst⟩ := h
        subst hst
        refine ⟨regKeys_regInsert_of_has _ _ _ (regHas_of_get _ _ _ hget),
          fun k hk => regGet_regInsert_ne _ _ _ _ hk, ?_⟩
        rw [regGet_regInsert_self]
        simp only [Option.map_some']
        exact congrArg some (hProc _ _ _ _ hpm)
      · simp only [process_commit, hkd, hdes, hproto, hget, hpm, hms,
          Prod.mk.injEq] at h
        exact absurd h.1 (by simp)
    · simp only [process_commit, hkd, hdes, hproto, hget, hpm,
        Prod.mk.injEq] at h
      exact absurd h.1 (by simp)

/-- Witness for the C2 amended theorem: at the concrete failing
`add_member` run of the counterexample, the registry's key set is
unchanged. -/
theorem add_member_process_commit_error_atomicity_witness :
    regKeys ((⟨[("ab", 4)]⟩ : MlsClientState Nat)).groups =
      regKeys ((⟨[("ab", 3)]⟩ : MlsClientState Nat)).groups :=
  ((add_member_process_commit_error_atomicity badSerialE
    badSerialE_addMembers_epoch badSerialE_mergePendingCommit_epoch
    badSerialE_processMessage_epoch ⟨[("ab", 3)]⟩ ("ab") ("aa")).1
    (MlsError.serializationError ("Failed to serialize commit: boom"))
    ⟨[("ab", 4)]⟩ (by rfl)).1

/-- C3 counterexample: a well-formed payload whose processed content is
not a commit (here a proposal-like content kind) makes `process_commit`
return success while the targeted group's epoch stays at 3: a successful
call that does not advance the epoch, contradicting the claim's "every
successful call advances the epoch by exactly one". -/
theorem process_commit_ok_no_advance_cex :
    (process_commit toyE ⟨[("ab", 3)]⟩ ("ab") ("00")).1 = Except.ok () ∧
    regGet ([(("ab" : String), (3 : Nat))]) ("ab") = some 3 ∧
    regGet (process_commit toyE ⟨[("ab", 3)]⟩ ("ab") ("00")).2.groups ("ab") =
      some 3 :=
  ⟨rfl, rfl, rfl⟩

/-- C3 amended: a successful `process_commit` advances the targeted
group's epoch by exactly one when the processed content is a staged
commit (which is then merged), and leaves the epoch unchanged — a silent
no-op — when the content is anything else; and whenever the engine
rejects re-processing the same wire message against the advanced session
(the spec's commit-ordering contract, which makes a replayed commit
out of order), a second `process_commit` of the same payload returns an
error rather than succeeding.  Engine-contract hypotheses: processing
preserves the epoch, merging a staged commit advances it by one. -/
theorem process_commit_ok_epoch_cases {γ : Type} (E : Engine γ)
    (hProc : ∀ g m g' c, E.processMessage g m = Except.ok (g', c) →
      E.epoch g' = E.epoch g)
    (hMergeS : ∀ g sc g', E.mergeStagedCommit g sc = Except.ok g' →
      E.epoch g' = E.epoch g + 1)
    (st : MlsClientState γ) (group_id payload : String)
    (st' : MlsClientState γ)
    (h : process_commit E st group_id payload = (Except.ok (), st')) :
    ∃ g pm g1 content,
      regGet st.groups group_id = some g ∧
      (∃ bs m, hexDecode payload = Except.ok bs ∧
        E.msgDeserialize bs = Except.ok m ∧
        E.toProtocolMessage m = Except.ok pm) ∧
      E.processMessage g pm = Except.ok (g1, content) ∧
      ((∃ sc, content = ProcessedContent.stagedCommit sc ∧
          ∃ g2, E.mergeStagedCommit g1 sc = Except.ok g2 ∧
            regGet st'.groups group_id = some g2 ∧
            E.epoch g2 = E.epoch g + 1) ∨
        ((∀ sc, content ≠ ProcessedContent.stagedCommit sc) ∧
          regGet st'.groups group_id = some g1 ∧
          E.epoch g1 = E.epoch g)) ∧
      (∀ g' e, regGet st'.groups group_id = some g' →
        E.processMessage g' pm = Except.error e →
        (process_commit E st' group_id payload).1 =
          Except.error (MlsError.generic ("Failed to process commit: " ++ e))) := by
  rcases hkd : hexDecode payload with e | commit_bytes
  · simp [process_commit, hkd] at h
  rcases hdes : E.msgDeserialize commit_bytes with e | mls_message
  · simp [process_commit, hkd, hdes] at h
  rcases hproto : E.toProtocolMessage mls_message with e | protocol_message
  · simp [process_commit, hkd, hdes, hproto] at h
  rcases hget : regGet st.groups group_id with _ | group
  · simp [process_commit, hkd, hdes, hproto, hget] at h
  rcases hpm : E.processMessage group protocol_message with e | ⟨group1, content⟩
  · simp [process_commit, hkd, hdes, hproto, hget, hpm] at h
  rcases hc : content with payload_bytes | sc | _
  · subst hc
    simp only [process_commit, hkd, hdes, hproto, hget, hpm,
      Prod.mk.injEq, true_and] at h
    subst h
    refine ⟨group, protocol_message, group1,
      ProcessedContent.applicationMessage payload_bytes, rfl,
      ⟨commit_bytes, mls_message, rfl, hdes, hproto⟩, hpm,
      Or.inr ⟨(fun sc hcontra => nomatch hcontra),
        regGet_regInsert_self _ _ _, hProc _ _ _ _ hpm⟩,
      ?_⟩
    intro g' e hg' hrej
    simp [process_commit, hkd, hdes, hproto, hg', hrej]
  · subst hc
    rcases hms : E.mergeStagedCommit group1 sc with e | group2
    · simp [process_commit, hkd, hdes, hproto, hget, hpm, hms] at h
    simp only [process_commit, hkd, hdes, hproto, hget, hpm, hms,
      Prod.mk.injEq, true_and] at h
    subst h
    refine ⟨group, protocol_message, group1, ProcessedContent.stagedCommit sc,
      rfl, ⟨commit_bytes, mls_message, rfl, hdes, hproto⟩, hpm,
      Or.inl ⟨sc, rfl, group2, hms, regGet_regInsert_self _ _ _,
        by rw [hMergeS _ _ _ hms, hProc _ _ _ _ hpm]⟩,
      ?_⟩
    intro g' e hg' hrej
    simp [process_commit, hkd, hdes, hproto, hg', hrej]
  · subst hc
    simp only [process_commit, hkd, hdes, hproto, hget, hpm,
      Prod.mk.injEq, true_and] at h
    subst h
    refine ⟨group, protocol_message, group1, ProcessedContent.other, rfl,
      ⟨commit_bytes, mls_message, rfl, hdes, hproto⟩, hpm,
      Or.inr ⟨(fun sc hcontra => nomatch hcontra),
        regGet_regInsert_self _ _ _, hProc _ _ _ _ hpm⟩,
      ?_⟩
    intro g' e hg' hrej
    simp [process_commit, hkd, hdes, hproto, hg', hrej]

/-- Witness for the C3 amended theorem: a concrete `process_commit` run
on `toyE` whose payload is a commit, advancing the epoch from 3 to 4. -/
theorem process_commit_ok_epoch_cases_witness :
    ∃ (g : Nat) (pm : List Nat) (g1 : Nat) (content : ProcessedContent),
      regGet ([(("ab" : String), (3 : Nat))]) ("ab") = some g ∧
      (∃ bs m, hexDecode ("09") = Except.ok bs ∧
        toyE.msgDeserialize bs = Except.ok m ∧
        toyE.toProtocolMessage m = Except.ok pm) ∧
      toyE.processMessage g pm = Except.ok (g1, content) ∧
      ((∃ sc, content = ProcessedContent.stagedCommit sc ∧
          ∃ g2, toyE.mergeStagedCommit g1 sc = Except.ok g2 ∧
            regGet ((⟨[("ab", 4)]⟩ : MlsClientState Nat)).groups ("ab") = some g2 ∧
            toyE.epoch g2 = toyE.epoch g + 1) ∨
        ((∀ sc, content ≠ ProcessedContent.stagedCommit sc) ∧
          regGet ((⟨[("ab", 4)]⟩ : MlsClientState Nat)).groups ("ab") = some g1 ∧
          toyE.epoch g1 = toyE.epoch g)) ∧
      (∀ g' e, regGet ((⟨[("ab", 4)]⟩ : MlsClientState Nat)).groups ("ab") = some g' →
        toyE.processMessage g' pm = Except.error e →
        (process_commit toyE ⟨[("ab", 4)]⟩ ("ab") ("09")).1 =
          Except.error (MlsError.generic ("Failed to process commit: " ++ e))) :=
  process_commit_ok_epoch_cases toyE toyE_processMessage_epoch
    toyE_mergeStagedCommit_epoch ⟨[("ab", 3)]⟩ ("ab") ("09")
    ⟨[("ab", 4)]⟩ (by rfl)

/-- C4 counterexample: with the group identifier `"g"` absent from the
registry, `add_member` on a malformed (non-hex) payload returns a
`SerializationError`, not `GroupNotFound("g")`: the payload is decoded
(lines 191-202) before the registry lookup (line 210), so an unknown
identifier does not guarantee a `GroupNotFound` failure. -/
theorem unknown_group_add_member_cex :
    regGet (([] : List (String × Nat))) ("g") = none ∧
    (add_member toyE ⟨[]⟩ ("g") ("zz")).1 =
      Except.error (MlsError.serializationError
        ("Failed to decode key package hex: InvalidHexCharacter")) ∧
    (add_member toyE ⟨[]⟩ ("g") ("zz")).1 ≠
      Except.error (MlsError.groupNotFound ("g")) := by
  refine ⟨rfl, rfl, fun hcontra => ?_⟩
  rw [show (add_member toyE ⟨[]⟩ ("g") ("zz")).1 =
    Except.error (MlsError.serializationError
      ("Failed to decode key package hex: InvalidHexCharacter")) from rfl]
    at hcontra
  simp at hcontra

/-- C4 amended: for a group identifier absent from the registry,
`get_group_info` and `encrypt_message` fail with `GroupNotFound`
carrying that identifier for every payload; `add_member`,
`process_commit` and `decrypt_message` decode (and, for `add_member`,
validate) the payload first and fail with `GroupNotFound` carrying the
identifier whenever the payload passes those stages, but may fail with
`SerializationError`/`CryptoError` instead on a payload that does not.
In every case the registry is left unchanged. -/
theorem unknown_group_ops_not_found {γ : Type} (E : Engine γ)
    (st : MlsClientState γ) (group_id : String)
    (hAbsent : regGet st.groups group_id = none) :
    get_group_info E st group_id =
      Except.error (MlsError.groupNotFound group_id) ∧
    (∀ plaintext, encrypt_message E st group_id plaintext =
      (Except.error (MlsError.groupNotFound group_id), st)) ∧
    (∀ payload kp_bytes kp_in kp, hexDecode payload = Except.ok kp_bytes →
      E.kpDeserialize kp_bytes = Except.ok kp_in →
      E.kpValidate kp_in = Except.ok kp →
      add_member E st group_id payload =
        (Except.error (MlsError.groupNotFound group_id), st)) ∧
    (∀ payload bs m pm, hexDecode payload = Except.ok bs →
      E.msgDeserialize bs = Except.ok m →
      E.toProtocolMessage m = Except.ok pm →
      process_commit E st group_id payload =
        (Except.error (MlsError.groupNotFound group_id), st)) ∧
    (∀ payload bs m pm, hexDecode payload = Except.ok bs →
      E.msgDeserialize bs = Except.ok m →
      E.toProtocolMessage m = Except.ok pm →
      decrypt_message E st group_id payload =
        (Except.error (MlsError.groupNotFound group_id), st)) := by
  refine ⟨?_, ?_, ?_, ?_, ?_⟩
  · simp [get_group_info, hAbsent]
  · intro plaintext
    simp [encrypt_message, hAbsent]
  · intro payload kp_bytes kp_in kp hkd hkdes hkv
    simp [add_member, hkd, hkdes, hkv, hAbsent]
  · intro payload bs m pm hkd hdes hproto
    simp [process_commit, hkd, hdes, hproto, hAbsent]
  · intro payload bs m pm hkd hdes hproto
    simp [decrypt_message, hkd, hdes, hproto, hAbsent]

/-- Witness for the C4 amended theorem: on the empty registry,
`add_member` with a well-formed payload fails with `GroupNotFound`
carrying the unknown identifier. -/
theorem unknown_group_ops_not_found_witness :
    add_member toyE ⟨[]⟩ ("g") ("aa") =
      (Except.error (MlsError.groupNotFound ("g")), ⟨[]⟩) :=
  (unknown_group_ops_not_found toyE ⟨[]⟩ ("g") rfl).2.2.1
    ("aa") [170] [170] [170] rfl rfl rfl

/-- C5: for every engine whose freshly created group starts at epoch 0
(the spec's engine contract), a successful `create_group` leaves the
returned identifier registered with a session at epoch 0 and listed by
`list_active_groups`, while a failed `create_group` leaves the client
state exactly as it was (no session registered). -/
theorem create_group_epoch_zero_registered {γ : Type} (E : Engine γ)
    (hNew : ∀ g, E.newGroup = Except.ok g → E.epoch g = 0)
    (st : MlsClientState γ) (arg : String) :
    (∀ gid st', create_group E st arg = (Except.ok gid, st') →
      ∃ g, regGet st'.groups gid = some g ∧ E.epoch g = 0 ∧
        gid ∈ list_active_groups st') ∧
    (∀ err st', create_group E st arg = (Except.error err, st') →
      st' = st) := by
  constructor
  · intro gid st' h
    rcases hn : E.newGroup with e | group
    · simp [create_group, hn] at h
    simp only [create_group, hn, Prod.mk.injEq, Except.ok.injEq] at h
    obtain ⟨hgid, hst⟩ := h
    subst hst
    subst hgid
    refine ⟨group, regGet_regInsert_self _ _ _, hNew group hn, ?_⟩
    unfold list_active_groups
    exact (mem_regKeys_regInsert _ _ _ _).mpr (Or.inr rfl)
  · intro err st' h
    rcases hn : E.newGroup with e | group
    · simp only [create_group, hn, Prod.mk.injEq, Except.error.injEq] at h
      exact h.2.symm
    · simp [create_group, hn] at h

/-- Witness for C5: a concrete successful `create_group` run on `toyE`
registering the engine-assigned identifier `"ab"` at epoch 0. -/
theorem create_group_epoch_zero_registered_witness :
    ∃ g, regGet ((⟨[("ab", 0)]⟩ : MlsClientState Nat)).groups ("ab") = some g ∧
      toyE.epoch g = 0 ∧
      "ab" ∈ list_active_groups ((⟨[("ab", 0)]⟩ : MlsClientState Nat)) :=
  (create_group_epoch_zero_registered toyE toyE_newGroup_epoch
    ⟨[]⟩ ("x")).1 ("ab") ⟨[("ab", 0)]⟩ (by rfl)

/-- C6: whenever the ciphertext pipeline of `decrypt_message` decodes
and the processed content is not an application message (for example a
commit routed through this entry point), the call returns the empty
string — not an error — and the group stays registered with its epoch
unchanged (no merge is performed; processing preserves the epoch by the
engine contract). -/
theorem decrypt_message_non_app_empty {γ : Type} (E : Engine γ)
    (hProc : ∀ g m g' c, E.processMessage g m = Except.ok (g', c) →
      E.epoch g' = E.epoch g)
    (st : MlsClientState γ) (group_id payload : String)
    (bs m pm : List Nat) (g g1 : γ) (content : ProcessedContent)
    (hkd : hexDecode payload = Except.ok bs)
    (hdes : E.msgDeserialize bs = Except.ok m)
    (hproto : E.toProtocolMessage m = Except.ok pm)
    (hget : regGet st.groups group_id = some g)
    (hpm : E.processMessage g pm = Except.ok (g1, content))
    (hnotapp : ∀ p, content ≠ ProcessedContent.applicationMessage p) :
    decrypt_message E st group_id payload =
      (Except.ok (""), ⟨regInsert st.groups group_id g1⟩) ∧
    regGet (regInsert st.groups group_id g1) group_id = some g1 ∧
    E.epoch g1 = E.epoch g := by
  refine ⟨?_, regGet_regInsert_self _ _ _, hProc _ _ _ _ hpm⟩
  rcases hc : content with payload_bytes | sc | _
  · exact absurd hc (hnotapp payload_bytes)
  · subst hc
    simp [decrypt_message, hkd, hdes, hproto, hget, hpm]
  · subst hc
    simp [decrypt_message, hkd, hdes, hproto, hget, hpm]

/-- Witness for C6: a concrete `decrypt_message` run on `toyE` whose
payload resolves to a commit; the result is the empty string and the
epoch stays at 3. -/
theorem decrypt_message_non_app_empty_witness :
    decrypt_message toyE ⟨[("ab", 3)]⟩ ("ab") ("09") =
      (Except.ok (""), ⟨regInsert [("ab", 3)] ("ab") 3⟩) ∧
    regGet (regInsert [("ab", 3)] ("ab") 3) ("ab") = some 3 ∧
    toyE.epoch 3 = toyE.epoch 3 :=
  decrypt_message_non_app_empty toyE toyE_processMessage_epoch
    ⟨[("ab", 3)]⟩ ("ab") ("09") [9] [9] [9] 3 3
    (ProcessedContent.stagedCommit [9]) rfl rfl rfl rfl rfl
    (fun _p hcontra => nomatch hcontra)

/-! Machinery for the registry key invariant: the registry-mutating
operations as a small step language, the post-state shape of each
operation, and preservation of the invariant. -/

/-- The registry-mutating client operations (the read-only operations
`get_group_info`, `list_active_groups`, `save_state`, `load_state` and
`list_saved_groups` do not touch the registry by their types). -/
inductive ClientOp where
  | createGroup (arg : String)
  | addMember (group_id payload : String)
  | processCommit (group_id payload : String)
  | processWelcome (payload : String)
  | encryptMessage (group_id plaintext : String)
  | decryptMessage (group_id payload : String)

/-- State left behind by one client operation (its error-or-result value
discarded). -/
def stepOp {γ : Type} (E : Engine γ) (st : MlsClientState γ) :
    ClientOp → MlsClientState γ
  | ClientOp.createGroup arg => (create_group E st arg).2
  | ClientOp.addMember gid p => (add_member E st gid p).2
  | ClientOp.processCommit gid p => (process_commit E st gid p).2
  | ClientOp.processWelcome p => (process_welcome E st p).2
  | ClientOp.encryptMessage gid p => (encrypt_message E st gid p).2
  | ClientOp.decryptMessage gid p => (decrypt_message E st gid p).2

/-- State after a sequence of client operations. -/
def runOps {γ : Type} (E : Engine γ) (st : MlsClientState γ) :
    List ClientOp → MlsClientState γ
  | [] => st
  | op :: rest => runOps E (stepOp E st op) rest

/-- The registry key invariant: every key equals the lowercase-hex
rendering of the group identifier stored inside the session it maps
to. -/
def RegistryInv {γ : Type} (E : Engine γ) (st : MlsClientState γ) : Prop :=
  ∀ k g, regGet st.groups k = some g → k = hexEncode (E.groupId g)

theorem create_group_state_shape {γ : Type} (E : Engine γ)
    (st : MlsClientState γ) (arg : String) :
    (create_group E st arg).2 = st ∨
    ∃ g, (create_group E st arg).2 =
      ⟨regInsert st.groups (hexEncode (E.groupId g)) g⟩ := by
  rcases hn : E.newGroup with e | g
  · left
    simp [create_group, hn]
  · right
    exact ⟨g, by simp [create_group, hn]⟩

theorem add_member_state_shape {γ : Type} (E : Engine γ)
    (st : MlsClientState γ) (group_id payload : String) :
    (add_member E st group_id payload).2 = st ∨
    ∃ g kp g1 c w, regGet st.groups group_id = some g ∧
      E.addMembers g kp = Except.ok (g1, c, w) ∧
      ((add_member E st group_id payload).2 =
          ⟨regInsert st.groups group_id g1⟩ ∨
        ∃ g2, E.mergePendingCommit g1 = Except.ok g2 ∧
          (add_member E st group_id payload).2 =
            ⟨regInsert st.groups group_id g2⟩) := by
  rcases hkd : hexDecode payload with e | kp_bytes
  · left
    simp [add_member, hkd]
  rcases hkdes : E.kpDeserialize kp_bytes with e | kp_in
  · left
    simp [add_member, hkd, hkdes]
  rcases hkv : E.kpValidate kp_in with e | kp
  · left
    simp [add_member, hkd, hkdes, hkv]
  rcases hget : regGet st.groups group_id with _ | g
  · left
    simp [add_member, hkd, hkdes, hkv, hget]
  rcases hadd : E.addMembers g kp with e | ⟨g1, c, w⟩
  · left
    simp [add_member, hkd, hkdes, hkv, hget, hadd]
  rcases hmerge : E.mergePendingCommit g1 with e | g2
  · right
    exact ⟨g, kp, g1, c, w, rfl, hadd, Or.inl
      (by simp [add_member, hkd, hkdes, hkv, hget, hadd, hmerge])⟩
  rcases hsc : E.serializeMsg c with e | cb
  · right
    exact ⟨g, kp, g1, c, w, rfl, hadd, Or.inr ⟨g2, hmerge,
      by simp [add_member, hkd, hkdes, hkv, hget, hadd, hmerge, hsc]⟩⟩
  rcases hsw : E.serializeMsg w with e | wb
  · right
    exact ⟨g, kp, g1, c, w, rfl, hadd, Or.inr ⟨g2, hmerge,
      by simp [add_member, hkd, hkdes, hkv, hget, hadd, hmerge, hsc, hsw]⟩⟩
  · right
    exact ⟨g, kp, g1, c, w, rfl, hadd, Or.inr ⟨g2, hmerge,
      by simp [add_member, hkd, hkdes, hkv, hget, hadd, hmerge, hsc, hsw]⟩⟩

theorem process_commit_state_shape {γ : Type} (E : Engine γ)
    (st : MlsClientState γ) (group_id payload : String) :
    (process_commit E st group_id payload).2 = st ∨
    ∃ g pm g1 content, regGet st.groups group_id = some g ∧
      E.processMessage g pm = Except.ok (g1, content) ∧
      ((process_commit E st group_id payload).2 =
          ⟨regInsert st.groups group_id g1⟩ ∨
        ∃ sc g2, E.mergeStagedCommit g1 sc = Except.ok g2 ∧
          (process_commit E st group_id payload).2 =
            ⟨regInsert st.groups group_id g2⟩) := by
  rcases hkd : hexDecode payload with e | commit_bytes
  · left
    simp [process_commit, hkd]
  rcases hdes : E.msgDeserialize commit_bytes with e | mls_message
  · left
    simp [process_commit, hkd, hdes]
  rcases hproto : E.toProtocolMessage mls_message with e | pm
  · left
    simp [process_commit, hkd, hdes, hproto]
  rcases hget : regGet st.groups group_id with _ | g
  · left
    simp [process_commit, hkd, hdes, hproto, hget]
  rcases hpm : E.processMessage g pm with e | ⟨g1, content⟩
  · left
    simp [process_commit, hkd, hdes, hproto, hget, hpm]
  rcases hc : content with payload_bytes | sc | _
  · right
    subst hc
    exact ⟨g, pm, g1, ProcessedContent.applicationMessage payload_bytes,
      rfl, hpm, Or.inl
      (by simp [process_commit, hkd, hdes, hproto, hget, hpm])⟩
  · subst hc
    rcases hms : E.mergeStagedCommit g1 sc with e | g2
    · right
      exact ⟨g, pm, g1, ProcessedContent.stagedCommit sc, rfl, hpm, Or.inl
        (by simp [process_commit, hkd, hdes, hproto, hget, hpm, hms])⟩
    · right
      exact ⟨g, pm, g1, ProcessedContent.stagedCommit sc, rfl, hpm,
        Or.inr ⟨sc, g2, hms,
          by simp [process_commit, hkd, hdes, hproto, hget, hpm, hms]⟩⟩
  · right
    subst hc
    exact ⟨g, pm, g1, ProcessedContent.other, rfl, hpm, Or.inl
      (by simp [process_commit, hkd, hdes, hproto, hget, hpm])⟩

theorem process_welcome_state_shape {γ : Type} (E : Engine γ)
    (st : MlsClientState γ) (payload : String) :
    (process_welcome E st payload).2 = st ∨
    ∃ g, (process_welcome E st payload).2 =
      ⟨regInsert st.groups (hexEncode (E.groupId g)) g⟩ := by
  rcases hkd : hexDecode payload with e | welcome_bytes
  · left
    simp [process_welcome, hkd]
  rcases hdes : E.msgDeserialize welcome_bytes with e | mls_message
  · left
    simp [process_welcome, hkd, hdes]
  rcases hbody : E.extractBody mls_message with w | _
  · rcases hstage : E.stageWelcome w with e | sw
    · left
      simp [process_welcome, hkd, hdes, hbody, hstage]
    rcases hinto : E.intoGroup sw with e | g
    · left
      simp [process_welcome, hkd, hdes, hbody, hstage, hinto]
    · right
      exact ⟨g,
        by simp [process_welcome, hkd, hdes, hbody, hstage, hinto]⟩
  · left
    simp [process_welcome, hkd, hdes, hbody]

theorem encrypt_message_state_shape {γ : Type} (E : Engine γ)
    (st : MlsClientState γ) (group_id plaintext : String) :
    (encrypt_message E st group_id plaintext).2 = st ∨
    ∃ g g1 m, regGet st.groups group_id = some g ∧
      E.createMessage g (strBytes plaintext) = Except.ok (g1, m) ∧
      (encrypt_message E st group_id plaintext).2 =
        ⟨regInsert st.groups group_id g1⟩ := by
  rcases hget : regGet st.groups group_id with _ | g
  · left
    simp [encrypt_message, hget]
  rcases hcm : E.createMessage g (strBytes plaintext) with e | ⟨g1, m⟩
  · left
    simp [encrypt_message, hget, hcm]
  rcases hs : E.serializeMsg m with e | bytes
  · right
    exact ⟨g, g1, m, rfl, hcm, by simp [encrypt_message, hget, hcm, hs]⟩
  · right
    exact ⟨g, g1, m, rfl, hcm, by simp [encrypt_message, hget, hcm, hs]⟩

theorem decrypt_message_state_shape {γ : Type} (E : Engine γ)
    (st : MlsClientState γ) (group_id payload : String) :
    (decrypt_message E st group_id payload).2 = st ∨
    ∃ g pm g1 content, regGet st.groups group_id = some g ∧
      E.processMessage g pm = Except.ok (g1, content) ∧
      (decrypt_message E st group_id payload).2 =
        ⟨regInsert st.groups group_id g1⟩ := by
  rcases hkd : hexDecode payload with e | bytes
  · left
    simp [decrypt_message, hkd]
  rcases hdes : E.msgDeserialize bytes with e | mls_message
  · left
    simp [decrypt_message, hkd, hdes]
  rcases hproto : E.toProtocolMessage mls_message with e | pm
  · left
    simp [decrypt_message, hkd, hdes, hproto]
  rcases hget : regGet st.groups group_id with _ | g
  · left
    simp [decrypt_message, hkd, hdes, hproto, hget]
  rcases hpm : E.processMessage g pm with e | ⟨g1, content⟩
  · left
    simp [decrypt_message, hkd, hdes, hproto, hget, hpm]
  rcases hc : content with payload_bytes | sc | _
  · subst hc
    rcases hu : utf8Decode payload_bytes with e | s
    · right
      exact ⟨g, pm, g1, ProcessedContent.applicationMessage payload_bytes,
        rfl, hpm,
        by simp [decrypt_message, hkd, hdes, hproto, hget, hpm, hu]⟩
    · right
      exact ⟨g, pm, g1, ProcessedContent.applicationMessage payload_bytes,
        rfl, hpm,
        by simp [decrypt_message, hkd, hdes, hproto, hget, hpm, hu]⟩
  · subst hc
    right
    exact ⟨g, pm, g1, ProcessedContent.stagedCommit sc, rfl, hpm,
      by simp [decrypt_message, hkd, hdes, hproto, hget, hpm]⟩
  · subst hc
    right
    exact ⟨g, pm, g1, ProcessedContent.other, rfl, hpm,
      by simp [decrypt_message, hkd, hdes, hproto, hget, hpm]⟩

theorem registryInv_insert_hex {γ : Type} (E : Engine γ)
    (st : MlsClientState γ) (g : γ) (hInv : RegistryInv E st) :
    RegistryInv E ⟨regInsert st.groups (hexEncode (E.groupId g)) g⟩ := by
  intro k g0 hk
  by_cases hke : k = hexEncode (E.groupId g)
  · subst hke
    rw [show regGet (regInsert st.groups (hexEncode (E.groupId g)) g)
        (hexEncode (E.groupId g)) = some g from
      regGet_regInsert_self _ _ _] at hk
    injection hk with hgg
    rw [← hgg]
  · rw [show regGet (regInsert st.groups (hexEncode (E.groupId g)) g) k =
      regGet st.groups k from regGet_regInsert_ne _ _ _ _ hke] at hk
    exact hInv k g0 hk

theorem registryInv_insert_existing {γ : Type} (E : Engine γ)
    (st : MlsClientState γ) (k0 : String) (g g' : γ)
    (hInv : RegistryInv E st) (hget : regGet st.groups k0 = some g)
    (hid : E.groupId g' = E.groupId g) :
    RegistryInv E ⟨regInsert st.groups k0 g'⟩ := by
  have hk0 : k0 = hexEncode (E.groupId g') := by
    rw [hid]
    exact hInv k0 g hget
  rw [hk0]
  exact registryInv_insert_hex E st g' hInv

theorem stepOp_preserves_registryInv {γ : Type} (E : Engine γ)
    (hAddId : ∀ g kp g' c w, E.addMembers g kp = Except.ok (g', c, w) →
      E.groupId g' = E.groupId g)
    (hMergePId : ∀ g g', E.mergePendingCommit g = Except.ok g' →
      E.groupId g' = E.groupId g)
    (hProcId : ∀ g m g' c, E.processMessage g m = Except.ok (g', c) →
      E.groupId g' = E.groupId g)
    (hMergeSId : ∀ g sc g', E.mergeStagedCommit g sc = Except.ok g' →
      E.groupId g' = E.groupId g)
    (hCreateId : ∀ g p g' m, E.createMessage g p = Except.ok (g', m) →
      E.groupId g' = E.groupId g)
    (st : MlsClientState γ) (op : ClientOp) (hInv : RegistryInv E st) :
    RegistryInv E (stepOp E st op) := by
  cases op with
  | createGroup arg =>
    rcases create_group_state_shape E st arg with hs | ⟨g, hs⟩
    · simp only [stepOp, hs]
      exact hInv
    · simp only [stepOp, hs]
      exact registryInv_insert_hex E st g hInv
  | addMember gid payload =>
    rcases add_member_state_shape E st gid payload with
      hs | ⟨g, kp, g1, c, w, hget, hadd, hrest⟩
    · simp only [stepOp, hs]
      exact hInv
    · rcases hrest with hs | ⟨g2, hmerge, hs⟩
      · simp only [stepOp, hs]
        exact registryInv_insert_existing E st gid g g1 hInv hget
          (hAddId _ _ _ _ _ hadd)
      · simp only [stepOp, hs]
        exact registryInv_insert_existing E st gid g g2 hInv hget
          (by rw [hMergePId _ _ hmerge, hAddId _ _ _ _ _ hadd])
  | processCommit gid payload =>
    rcases process_commit_state_shape E st gid payload with
      hs | ⟨g, pm, g1, content, hget, hpm, hrest⟩
    · simp only [stepOp, hs]
      exact hInv
    · rcases hrest with hs | ⟨sc, g2, hms, hs⟩
      · simp only [stepOp, hs]
        exact registryInv_insert_existing E st gid g g1 hInv hget
          (hProcId _ _ _ _ hpm)
      · simp only [stepOp, hs]
        exact registryInv_insert_existing E st gid g g2 hInv hget
          (by rw [hMergeSId _ _ _ hms, hProcId _ _ _ _ hpm])
  | processWelcome payload =>
    rcases process_welcome_state_shape E st payload with hs | ⟨g, hs⟩
    · simp only [stepOp, hs]
      exact hInv
    · simp only [stepOp, hs]
      exact registryInv_insert_hex E st g hInv
  | encryptMessage gid plaintext =>
    rcases encrypt_message_state_shape E st gid plaintext with
      hs | ⟨g, g1, m, hget, hcm, hs⟩
    · simp only [stepOp, hs]
      exact hInv
    · simp only [stepOp, hs]
      exact registryInv_insert_existing E st gid g g1 hInv hget
        (hCreateId _ _ _ _ hcm)
  | decryptMessage gid payload =>
    rcases decrypt_message_state_shape E st gid payload with
      hs | ⟨g, pm, g1, content, hget, hpm, hs⟩
    · simp only [stepOp, hs]
      exact hInv
    · simp only [stepOp, hs]
      exact registryInv_insert_existing E st gid g g1 hInv hget
        (hProcId _ _ _ _ hpm)

/-- C7: for every engine that never changes a group's identifier while
mutating it (the spec's engine contract), after every sequence of
registry-mutating operations starting from a fresh client, every
registry key equals the lowercase-hex rendering of the group identifier
stored inside the session it maps to: the invariant is established by
`create_group` and `process_welcome`, which insert under exactly that
key, and preserved by every other operation. -/
theorem registry_key_invariant {γ : Type} (E : Engine γ)
    (hAddId : ∀ g kp g' c w, E.addMembers g kp = Except.ok (g', c, w) →
      E.groupId g' = E.groupId g)
    (hMergePId : ∀ g g', E.mergePendingCommit g = Except.ok g' →
      E.groupId g' = E.groupId g)
    (hProcId : ∀ g m g' c, E.processMessage g m = Except.ok (g', c) →
      E.groupId g' = E.groupId g)
    (hMergeSId : ∀ g sc g', E.mergeStagedCommit g sc = Except.ok g' →
      E.groupId g' = E.groupId g)
    (hCreateId : ∀ g p g' m, E.createMessage g p = Except.ok (g', m) →
      E.groupId g' = E.groupId g)
    (ops : List ClientOp) :
    RegistryInv E (runOps E (clientNew γ) ops) := by
  have hrun : ∀ (st : MlsClientState γ) (ops0 : List ClientOp),
      RegistryInv E st → RegistryInv E (runOps E st ops0) := by
    intro st ops0
    induction ops0 generalizing st with
    | nil => exact fun h => h
    | cons op rest ih =>
      intro h
      exact ih _ (stepOp_preserves_registryInv E hAddId hMergePId hProcId
        hMergeSId hCreateId st op h)
  apply hrun
  intro k g hk
  simp [clientNew, regGet] at hk

theorem toyE_mergePendingCommit_groupId : ∀ (g g' : Nat),
    toyE.mergePendingCommit g = Except.ok g' →
    toyE.groupId g' = toyE.groupId g :=
  fun _ _ _ => rfl

theorem toyE_processMessage_groupId : ∀ (g : Nat) m g' c,
    toyE.processMessage g m = Except.ok (g', c) →
    toyE.groupId g' = toyE.groupId g :=
  fun _ _ _ _ _ => rfl

theorem toyE_mergeStagedCommit_groupId : ∀ (g : Nat) sc g',
    toyE.mergeStagedCommit g sc = Except.ok g' →
    toyE.groupId g' = toyE.groupId g :=
  fun _ _ _ _ => rfl

theorem toyE_createMessage_groupId : ∀ (g : Nat) p g' m,
    toyE.createMessage g p = Except.ok (g', m) →
    toyE.groupId g' = toyE.groupId g :=
  fun _ _ _ _ _ => rfl

/-- Witness for C7: the invariant holds after a concrete sequence of
operations on `toyE` (create a group, add a member, process a commit,
decrypt a message). -/
theorem registry_key_invariant_witness :
    RegistryInv toyE (runOps toyE (clientNew Nat)
      [ClientOp.createGroup ("x"), ClientOp.addMember ("ab") ("aa"),
       ClientOp.processCommit ("ab") ("09"),
       ClientOp.decryptMessage ("ab") ("08")]) :=
  registry_key_invariant toyE toyE_addMembers_groupId
    toyE_mergePendingCommit_groupId toyE_processMessage_groupId
    toyE_mergeStagedCommit_groupId toyE_createMessage_groupId
    [ClientOp.createGroup ("x"), ClientOp.addMember ("ab") ("aa"),
     ClientOp.processCommit ("ab") ("09"),
     ClientOp.decryptMessage ("ab") ("08")]

theorem mem_of_regGet {κ α : Type} [DecidableEq κ] (l : List (κ × α))
    (k : κ) (v : α) (h : regGet l k = some v) : (k, v) ∈ l := by
  induction l with
  | nil => simp [regGet] at h
  | cons p t ih =>
    obtain ⟨a, b⟩ := p
    by_cases hak : a = k
    · subst hak
      simp only [regGet, if_pos rfl] at h
      injection h with h
      subst h
      exact List.mem_cons_self _ _
    · simp only [regGet, hak, if_false] at h
      exact List.mem_cons_of_mem _ (ih h)

/-- A record stored under `{stem}.json` whose `group_id` field equals
its stem survives the `save_state` loop: it is either kept or
overwritten by a record with the same `group_id`. -/
theorem saveGroupsAux_json_inv {γ : Type} (E : Engine γ) :
    ∀ (groups : List (String × γ)) (files files' : List (FileName × GroupState)),
      saveGroupsAux E groups files = (Except.ok (), files') →
      ∀ stem rec0, regGet files ⟨stem, "json"⟩ = some rec0 →
        rec0.group_id = stem →
        ∃ rec, regGet files' ⟨stem, "json"⟩ = some rec ∧
          rec.group_id = stem := by
  intro groups
  induction groups with
  | nil =>
    intro files files' h stem rec0 hget hname
    simp only [saveGroupsAux, Prod.mk.injEq, true_and] at h
    exact ⟨rec0, h ▸ hget, hname⟩
  | cons p rest ih =>
    obtain ⟨gid0, g0⟩ := p
    intro files files' h stem rec0 hget hname
    rcases he : E.exportGroupInfo g0 with e | gi
    · simp [saveGroupsAux, he] at h
    rcases hs : E.serializeMsg gi with e | gidata
    · simp [saveGroupsAux, he, hs] at h
    simp only [saveGroupsAux, he, hs] at h
    by_cases hsk : stem = gid0
    · subst hsk
      exact ih _ _ h stem ⟨stem, E.epoch g0, gidata, E.ownCredential g0⟩
        (regGet_regInsert_self _ _ _) rfl
    · have hne : (⟨stem, "json"⟩ : FileName) ≠ ⟨gid0, "json"⟩ := by
        intro hcontra
        exact hsk (congrArg FileName.stem hcontra)
      exact ih _ _ h stem rec0
        (by rw [regGet_regInsert_ne _ _ _ _ hne]; exact hget) hname

/-- Every group that the `save_state` loop walks over successfully ends
up with a durable record under `{group_id}.json` whose `group_id` field
is that identifier. -/
theorem saveGroupsAux_mem_written {γ : Type} (E : Engine γ) :
    ∀ (groups : List (String × γ)) (files files' : List (FileName × GroupState)),
      saveGroupsAux E groups files = (Except.ok (), files') →
      ∀ gid g, (gid, g) ∈ groups →
        ∃ rec, regGet files' ⟨gid, "json"⟩ = some rec ∧
          rec.group_id = gid := by
  intro groups
  induction groups with
  | nil =>
    intro files files' _ gid g hmem
    simp at hmem
  | cons p rest ih =>
    obtain ⟨gid0, g0⟩ := p
    intro files files' h gid g hmem
    rcases he : E.exportGroupInfo g0 with e | gi
    · simp [saveGroupsAux, he] at h
    rcases hs : E.serializeMsg gi with e | gidata
    · simp [saveGroupsAux, he, hs] at h
    simp only [saveGroupsAux, he, hs] at h
    rcases List.mem_cons.mp hmem with heq | hmem'
    · have hgid : gid = gid0 := congrArg Prod.fst heq
      subst hgid
      exact saveGroupsAux_json_inv E rest _ files' h gid
        ⟨gid, E.epoch g0, gidata, E.ownCredential g0⟩
        (regGet_regInsert_self _ _ _) rfl
    · exact ih _ _ h gid g hmem'

/-- Storage directory holding a stale durable record for a group `"aa"`
that is not registered in any live client. -/
def staleStorage : Storage :=
  ⟨true, [(⟨"aa", "json"⟩, ⟨"aa", 0, [], ⟨"Basic", [], []⟩⟩)]⟩

/-- C8 counterexample: with a stale record `aa.json` already on disk and
an empty registry, `save_state` succeeds (writing nothing and deleting
nothing), and on the simulated restart `list_saved_groups` returns
`["aa"]` while no identifier at all was registered at save time:
`list_saved_groups` is not "exactly the identifiers registered at save
time".  The other half of the claim holds: `list_active_groups` on the
new instance is empty. -/
theorem list_saved_not_exact_cex :
    (save_state toyE (clientNew Nat) staleStorage).1 = Except.ok () ∧
    regKeys (clientNew Nat).groups = [] ∧
    list_active_groups (clientNew Nat) = [] ∧
    list_saved_groups (save_state toyE (clientNew Nat) staleStorage).2 =
      Except.ok (["aa"]) :=
  ⟨rfl, rfl, rfl, rfl⟩

/-- C8 amended: after a successful `save_state`, `list_saved_groups` on
a new client instance with the same storage path returns a list that
contains every identifier registered at save time — but possibly more,
since stale records of previously saved, no-longer-registered groups
are never removed — and `list_active_groups` on the new instance
returns the empty set: no live session is reconstructed from durable
records. -/
theorem save_state_persists_registered {γ : Type} (E : Engine γ)
    (st : MlsClientState γ) (storage storage' : Storage)
    (h : save_state E st storage = (Except.ok (), storage')) :
    list_active_groups (clientNew γ) = [] ∧
    ∀ gid, gid ∈ regKeys st.groups →
      ∃ ids, list_saved_groups storage' = Except.ok ids ∧ gid ∈ ids := by
  refine ⟨rfl, ?_⟩
  intro gid hmem
  rcases hsa : saveGroupsAux E st.groups storage.files with ⟨r, files1⟩
  simp only [save_state, hsa, Prod.mk.injEq] at h
  obtain ⟨hr, hst⟩ := h
  subst hst
  subst hr
  obtain ⟨g, hget⟩ := get_of_mem_regKeys _ _ hmem
  obtain ⟨rec, hrec, hname⟩ := saveGroupsAux_mem_written E st.groups
    storage.files files1 hsa gid g (mem_of_regGet _ _ _ hget)
  refine ⟨_, rfl, ?_⟩
  have hmemf : (⟨gid, "json"⟩, rec) ∈ files1 := mem_of_regGet _ _ _ hrec
  have hfil : (⟨gid, "json"⟩, rec) ∈
      files1.filter (fun p => p.1.ext == "json") :=
    List.mem_filter.mpr ⟨hmemf, by simp⟩
  exact List.mem_map.mpr ⟨(⟨gid, "json"⟩, rec), hfil, hname⟩

/-- Witness for the C8 amended theorem: saving a client with one
registered group `"ab"` into an empty storage directory makes `"ab"`
appear in `list_saved_groups`. -/
theorem save_state_persists_registered_witness :
    ∃ ids, list_saved_groups
        ((⟨true, [(⟨"ab", "json"⟩,
          ⟨"ab", 3, [3], ⟨"Basic", [100], [200]⟩⟩)]⟩ : Storage)) =
        Except.ok ids ∧ "ab" ∈ ids :=
  (save_state_persists_registered toyE ⟨[("ab", 3)]⟩ ⟨false, []⟩
    ⟨true, [(⟨"ab", "json"⟩, ⟨"ab", 3, [3], ⟨"Basic", [100], [200]⟩⟩)]⟩
    (by rfl)).2 ("ab") (by simp [regKeys])

/-- C9: `create_group` ignores its group-identifier argument entirely:
from the same client state and the same engine behaviour, any two
argument strings produce the identical result and registry state, and
the returned identifier is always the hex rendering of the
engine-assigned (protocol-assigned) group identifier, never derived
from the argument. -/
theorem create_group_ignores_argument {γ : Type} (E : Engine γ)
    (st : MlsClientState γ) (a b : String) :
    create_group E st a = create_group E st b ∧
    (∀ g, E.newGroup = Except.ok g →
      (create_group E st a).1 = Except.ok (hexEncode (E.groupId g))) := by
  constructor
  · rfl
  · intro g hg
    simp [create_group, hg]

/-- Witness for C9: on `toyE` the argument strings `"x"` and `"y"` give
the same result, and the returned identifier is the engine-assigned
`"ab"`. -/
theorem create_group_ignores_argument_witness :
    create_group toyE ⟨[]⟩ ("x") = create_group toyE ⟨[]⟩ ("y") ∧
    (create_group toyE ⟨[]⟩ ("x")).1 = Except.ok ("ab") :=
  ⟨(create_group_ignores_argument toyE ⟨[]⟩ ("x") ("y")).1,
   ((create_group_ignores_argument toyE ⟨[]⟩ ("x") ("y")).2 0 rfl).trans
     (by rfl)⟩

/-- C10: whenever the welcome pipeline succeeds (decode, deserialize,
Welcome body, staging, group construction), `process_welcome` returns
the hex of the welcome's protocol-assigned group identifier and maps it
in the registry to the newly joined session, leaving every entry under
a different identifier unchanged; nothing in the run depends on whether
that identifier was already present, so an existing entry is silently
replaced with no error. -/
theorem process_welcome_ok_registers {γ : Type} (E : Engine γ)
    (st : MlsClientState γ) (payload : String) (bs m w sw : List Nat)
    (g : γ)
    (hkd : hexDecode payload = Except.ok bs)
    (hdes : E.msgDeserialize bs = Except.ok m)
    (hbody : E.extractBody m = MsgBody.welcome w)
    (hstage : E.stageWelcome w = Except.ok sw)
    (hinto : E.intoGroup sw = Except.ok g) :
    process_welcome E st payload =
      (Except.ok (hexEncode (E.groupId g)),
        ⟨regInsert st.groups (hexEncode (E.groupId g)) g⟩) ∧
    regGet (regInsert st.groups (hexEncode (E.groupId g)) g)
      (hexEncode (E.groupId g)) = some g ∧
    (∀ k, k ≠ hexEncode (E.groupId g) →
      regGet (regInsert st.groups (hexEncode (E.groupId g)) g) k =
        regGet st.groups k) := by
  refine ⟨?_, regGet_regInsert_self _ _ _,
    fun k hk => regGet_regInsert_ne _ _ _ _ hk⟩
  simp [process_welcome, hkd, hdes, hbody, hstage, hinto]

/-- Witness for C10: a concrete `process_welcome` run on `toyE` with an
entry already registered under the welcome's identifier `"ab"`; the
entry is silently replaced by the joined session. -/
theorem process_welcome_ok_registers_witness :
    process_welcome toyE ⟨[("ab", 3)]⟩ ("00") =
      (Except.ok (hexEncode [171]),
        ⟨regInsert [("ab", 3)] (hexEncode [171]) 5⟩) ∧
    regGet (regInsert [("ab", 3)] (hexEncode [171]) 5) (hexEncode [171]) =
      some 5 ∧
    (∀ k, k ≠ hexEncode [171] →
      regGet (regInsert [("ab", 3)] (hexEncode [171]) 5) k =
        regGet ([(("ab" : String), (3 : Nat))]) k) :=
  process_welcome_ok_registers toyE ⟨[("ab", 3)]⟩ ("00") [0] [0] [0] [0] 5
    rfl rfl rfl rfl rfl
